import Mathlib

/-!
Verification development for the CPI computation pipeline of the
`bigdata` repository (`src/cpi_calculater.py`).

The embedding mirrors the pandas semantics of `calculate_cpi` and
`save_combined_results`:

* float cells are modelled by `FVal` (a rational number, `+inf`, `-inf`
  or `NaN`), with IEEE-style multiplication, addition and division for
  exactly the cases the pipeline can reach;
* `pd.to_numeric(errors=coerce)` is `toNumeric` on `RawVal` (a parseable
  number or an unparseable string, which coerces to `NaN`);
* the two inner merges on `category_id` are `joinRows`;
* `groupby(time_period).agg(sum)` is `totalWeight` / `totalWeighted`
  (pandas sums skip `NaN` and sort group keys ascending);
* the dynamic rebase picks the column minimum of `time_period` and the
  first row carrying it, exactly as `.min()` / `.values[0]` do;
* `pd.merge_asof(..., direction=nearest)` is `mergeCombined`, built from
  a backward and a forward as-of search with ties resolved backward,
  as in the pandas implementation;
* the in-place `pd.to_datetime` column assignments of
  `save_combined_results` are modelled by explicit state passing: the
  function returns the post-states of both input frames together with
  the combined frame.
-/

namespace Cpi

/-- A float cell: finite rational, positive/negative infinity, or NaN. -/
inductive FVal where
  | num (q : ℚ)
  | posInf
  | negInf
  | nan
deriving DecidableEq, Repr

/-- Whether a float cell is NaN (`Series.isna` on numeric data). -/
def FVal.isNan : FVal → Bool
  | .nan => true
  | _ => false

/-- IEEE-style multiplication on float cells. -/
def fmul : FVal → FVal → FVal
  | .nan, _ => .nan
  | .num _, .nan => .nan
  | .posInf, .nan => .nan
  | .negInf, .nan => .nan
  | .num a, .num b => .num (a * b)
  | .num a, .posInf => if 0 < a then .posInf else if a < 0 then .negInf else .nan
  | .num a, .negInf => if 0 < a then .negInf else if a < 0 then .posInf else .nan
  | .posInf, .num b => if 0 < b then .posInf else if b < 0 then .negInf else .nan
  | .negInf, .num b => if 0 < b then .negInf else if b < 0 then .posInf else .nan
  | .posInf, .posInf => .posInf
  | .posInf, .negInf => .negInf
  | .negInf, .posInf => .negInf
  | .negInf, .negInf => .posInf

/-- IEEE-style addition on float cells. -/
def fadd : FVal → FVal → FVal
  | .nan, _ => .nan
  | .num _, .nan => .nan
  | .posInf, .nan => .nan
  | .negInf, .nan => .nan
  | .num a, .num b => .num (a + b)
  | .num _, .posInf => .posInf
  | .num _, .negInf => .negInf
  | .posInf, .num _ => .posInf
  | .negInf, .num _ => .negInf
  | .posInf, .posInf => .posInf
  | .negInf, .negInf => .negInf
  | .posInf, .negInf => .nan
  | .negInf, .posInf => .nan

/-- IEEE-style division on float cells (numpy: `x/0 = ±inf` for `x ≠ 0`,
`0/0 = NaN`). -/
def fdiv : FVal → FVal → FVal
  | .nan, _ => .nan
  | .num _, .nan => .nan
  | .posInf, .nan => .nan
  | .negInf, .nan => .nan
  | .num a, .num b =>
      if b = 0 then (if 0 < a then .posInf else if a < 0 then .negInf else .nan)
      else .num (a / b)
  | .num _, .posInf => .num 0
  | .num _, .negInf => .num 0
  | .posInf, .num b => if b < 0 then .negInf else .posInf
  | .negInf, .num b => if b < 0 then .posInf else .negInf
  | .posInf, .posInf => .nan
  | .posInf, .negInf => .nan
  | .negInf, .posInf => .nan
  | .negInf, .negInf => .nan

/-- A pandas column sum: `NaN` entries are skipped, the empty sum is `0`
(`sum` with default `skipna=True`, `min_count=0`). -/
def psum (l : List FVal) : FVal :=
  (l.filter (fun v => !v.isNan)).foldl fadd (.num 0)

/-- A raw cell before numeric coercion: a parseable number or an
unparseable string. -/
inductive RawVal where
  | rnum (q : ℚ)
  | rstr
deriving DecidableEq, Repr

/-- `pd.to_numeric(errors=coerce)`: unparseable cells become `NaN`. -/
def toNumeric : RawVal → FVal
  | .rnum q => .num q
  | .rstr => .nan

/-- A row of the period-price frame `time_df` (`time_period`,
`category_id`, `avg_price`); time periods are day numbers. -/
structure TimeRow where
  time_period : ℤ
  category_id : ℕ
  avg_price : RawVal
deriving DecidableEq, Repr

/-- A row of the base-price frame `base_df`. -/
structure BaseRow where
  category_id : ℕ
  base_price : RawVal
deriving DecidableEq, Repr

/-- A row of the weight frame `weight_df`. -/
structure WeightRow where
  category_id : ℕ
  weight : RawVal
deriving DecidableEq, Repr

/-- A row of `merged` after the two inner joins and numeric coercion. -/
structure MergedRow where
  time_period : ℤ
  category_id : ℕ
  avg_price : FVal
  base_price : FVal
  weight : FVal
deriving DecidableEq, Repr

/-- `time_df.merge(base_df, on=category_id, how=inner).merge(weight_df, ...)`
followed by the three `pd.to_numeric(errors=coerce)` coercions. -/
def joinRows (time_df : List TimeRow) (base_df : List BaseRow)
    (weight_df : List WeightRow) : List MergedRow :=
  time_df.flatMap fun t =>
    (base_df.filter (fun b => b.category_id == t.category_id)).flatMap fun b =>
      (weight_df.filter (fun w => w.category_id == t.category_id)).map fun w =>
        { time_period := t.time_period
          category_id := t.category_id
          avg_price := toNumeric t.avg_price
          base_price := toNumeric b.base_price
          weight := toNumeric w.weight }

/-- `merged[price_index] = (avg_price / base_price) * 100`. -/
def priceIndex (r : MergedRow) : FVal :=
  fmul (fdiv r.avg_price r.base_price) (.num 100)

/-- `merged[weighted] = price_index * weight`. -/
def weighted (r : MergedRow) : FVal :=
  fmul (priceIndex r) r.weight

/-- The rows of one groupby bucket. -/
def bucketRows (merged : List MergedRow) (t : ℤ) : List MergedRow :=
  merged.filter (fun r => r.time_period == t)

/-- `total_weight` of a bucket: groupby sum of `weight`, skipping NaN. -/
def totalWeight (merged : List MergedRow) (t : ℤ) : FVal :=
  psum ((bucketRows merged t).map (fun r => r.weight))

/-- `total_weighted` of a bucket: groupby sum of `weighted`, skipping NaN. -/
def totalWeighted (merged : List MergedRow) (t : ℤ) : FVal :=
  psum ((bucketRows merged t).map weighted)

/-- `cpi = total_weighted / total_weight` for a bucket. -/
def bucketCpi (merged : List MergedRow) (t : ℤ) : FVal :=
  fdiv (totalWeighted merged t) (totalWeight merged t)

/-- The distinct group keys in ascending order, as `groupby` (with its
default `sort=True`) produces them. -/
def timePeriods (merged : List MergedRow) : List ℤ :=
  List.insertionSort (· ≤ ·) (merged.map (fun r => r.time_period)).dedup

/-- The grouped frame `cpi_result[[time_period, cpi]]`. -/
def cpiSeries (merged : List MergedRow) : List (ℤ × FVal) :=
  (timePeriods merged).map fun t => (t, bucketCpi merged t)

/-- The column minimum, as `Series.min()` computes it. -/
def colMin : List ℤ → Option ℤ
  | [] => none
  | a :: as => some (as.foldl min a)

/-- One output row: `{time_period, cpi, cpi_index}`. -/
structure CpiPoint where
  time_period : ℤ
  cpi : FVal
  cpi_index : FVal
deriving DecidableEq, Repr

/-- The data-quality count the run logs:
`merged[base_price].isna().sum()` (no other field is counted). -/
def baseNaCount (merged : List MergedRow) : ℕ :=
  (merged.filter (fun r => r.base_price.isNan)).length

/-- The observable warning count of a whole run. -/
def nullWarningCount (time_df : List TimeRow) (base_df : List BaseRow)
    (weight_df : List WeightRow) : ℕ :=
  baseNaCount (joinRows time_df base_df weight_df)

/-- `calculate_cpi`: join, coerce, abort when the join is empty, compute
per-bucket weighted CPI, then rebase at the column minimum of
`time_period`, taking the first matching row (`.values[0]`). -/
def calculate_cpi (time_df : List TimeRow) (base_df : List BaseRow)
    (weight_df : List WeightRow) : Except String (List CpiPoint) :=
  let merged := joinRows time_df base_df weight_df
  if merged.isEmpty then
    .error "merge produced zero rows"
  else
    let series := cpiSeries merged
    match colMin (series.map Prod.fst) with
    | none => .error "cpi result is empty"
    | some base_date =>
        let base_cpi :=
          (((series.filter (fun p => p.1 == base_date)).map Prod.snd).headD .nan)
        .ok (series.map fun p =>
          { time_period := p.1
            cpi := p.2
            cpi_index := fmul (fdiv p.2 base_cpi) (.num 100) })

/-- A time cell of a CPI frame handed to `save_combined_results`: either
still in its raw representation or already converted by
`pd.to_datetime`; `n` is the underlying day number either way. -/
inductive TimeCell where
  | rawStr (n : ℤ)
  | dt (n : ℤ)
deriving DecidableEq, Repr

/-- `pd.to_datetime` on one cell. -/
def to_datetime : TimeCell → TimeCell
  | .rawStr n => .dt n
  | .dt n => .dt n

/-- The day number a time cell denotes. -/
def TimeCell.val : TimeCell → ℤ
  | .rawStr n => n
  | .dt n => n

/-- A row of the daily CPI frame. -/
structure DailyRow where
  time_period_day : TimeCell
  cpi_index_day : FVal
deriving DecidableEq, Repr

/-- A row of the monthly CPI frame. -/
structure MonthlyRow where
  time_period_month : TimeCell
  cpi_index_month : FVal
deriving DecidableEq, Repr

/-- A row of the combined frame produced by `merge_asof`; missing
monthly columns are `none` / `NaN`. -/
structure CombinedRow where
  time_period_day : TimeCell
  cpi_index_day : FVal
  time_period_month : Option TimeCell
  cpi_index_month : FVal
deriving DecidableEq, Repr

/-- Backward as-of search: the last monthly row whose key is `≤ d`
(the list is searched in its given, sorted order). -/
def asofBackward (ms : List MonthlyRow) (d : ℤ) : Option MonthlyRow :=
  (ms.filter (fun m => m.time_period_month.val ≤ d)).getLast?

/-- Forward as-of search: the first monthly row whose key is `≥ d`. -/
def asofForward (ms : List MonthlyRow) (d : ℤ) : Option MonthlyRow :=
  (ms.filter (fun m => d ≤ m.time_period_month.val)).head?

/-- `merge_asof` with `direction=nearest`: pandas takes the backward and
the forward match and keeps the backward one when
`left - backward ≤ forward - left`, so exact ties resolve to the
earlier monthly key. -/
def nearestMatch (ms : List MonthlyRow) (d : ℤ) : Option MonthlyRow :=
  match asofBackward ms d, asofForward ms d with
  | none, none => none
  | some b, none => some b
  | none, some f => some f
  | some b, some f =>
      if d - b.time_period_month.val ≤ f.time_period_month.val - d then some b
      else some f

/-- The combined frame: one output row per daily row of the
day-sorted daily frame, enriched with its nearest monthly row. -/
def mergeCombined (monthly : List MonthlyRow) (daily : List DailyRow) :
    List CombinedRow :=
  let ds := List.insertionSort
    (fun a b : DailyRow => a.time_period_day.val ≤ b.time_period_day.val) daily
  let ms := List.insertionSort
    (fun a b : MonthlyRow => a.time_period_month.val ≤ b.time_period_month.val)
    monthly
  ds.map fun dr =>
    match nearestMatch ms dr.time_period_day.val with
    | none =>
        { time_period_day := dr.time_period_day
          cpi_index_day := dr.cpi_index_day
          time_period_month := none
          cpi_index_month := .nan }
    | some m =>
        { time_period_day := dr.time_period_day
          cpi_index_day := dr.cpi_index_day
          time_period_month := some m.time_period_month
          cpi_index_month := m.cpi_index_month }

/-- `save_combined_results` with its side effects made explicit: the two
`pd.to_datetime` column assignments mutate the caller's frames, so the
function returns the post-states of `monthly_data` and `daily_data`
together with the combined frame it writes out. -/
def save_combined_results (monthly_data : List MonthlyRow)
    (daily_data : List DailyRow) :
    List MonthlyRow × List DailyRow × List CombinedRow :=
  let daily' := daily_data.map fun r =>
    { r with time_period_day := to_datetime r.time_period_day }
  let monthly' := monthly_data.map fun r =>
    { r with time_period_month := to_datetime r.time_period_month }
  (monthly', daily', mergeCombined monthly' daily')

/-! ## Helper lemmas -/

@[simp] lemma isNan_nan : FVal.nan.isNan = true := rfl

/-- A column sum over cells that are each `NaN` or `0` is `0`. -/
lemma psum_eq_zero_of_forall (l : List FVal)
    (h : ∀ v ∈ l, v = FVal.nan ∨ v = FVal.num 0) : psum l = FVal.num 0 := by
  induction l with
  | nil => rfl
  | cons a as ih =>
      rcases h a (List.mem_cons_self a as) with ha | ha <;> subst ha
      · simpa [psum, FVal.isNan] using ih fun v hv => h v (List.mem_cons_of_mem _ hv)
      · have has : ∀ v ∈ as, v = FVal.nan ∨ v = FVal.num 0 :=
          fun v hv => h v (List.mem_cons_of_mem _ hv)
        simp only [psum, List.filter_cons] at *
        simpa [FVal.isNan, fadd] using ih has

/-- Dropping the rows a predicate rejects does not change a NaN-skipping
column sum, provided every rejected row maps to `NaN`. -/
lemma filter_map_isNan {α : Type} (p : α → Bool) (f : α → FVal) :
    ∀ l : List α, (∀ r ∈ l, p r = false → f r = FVal.nan) →
    ((l.filter p).map f).filter (fun v => !v.isNan) =
      (l.map f).filter (fun v => !v.isNan)
  | [], _ => rfl
  | a :: l, h => by
      have hl : ∀ r ∈ l, p r = false → f r = FVal.nan :=
        fun r hr => h r (List.mem_cons_of_mem _ hr)
      by_cases hp : p a
      · simp only [List.filter_cons, hp, List.map_cons]
        by_cases hn : (f a).isNan
        · simp [hn, filter_map_isNan p f l hl]
        · simp [hn, filter_map_isNan p f l hl]
      · have hfa : f a = FVal.nan := h a (List.mem_cons_self a l) (by simpa using hp)
        simp [List.filter_cons, hp, hfa, filter_map_isNan p f l hl]

/-- `psum` version of `filter_map_isNan`. -/
lemma psum_map_filter {α : Type} (p : α → Bool) (f : α → FVal) (l : List α)
    (h : ∀ r ∈ l, p r = false → f r = FVal.nan) :
    psum ((l.filter p).map f) = psum (l.map f) := by
  unfold psum
  rw [filter_map_isNan p f l h]

/-- Bucket selection commutes with row filtering. -/
lemma bucketRows_filter (p : MergedRow → Bool) (l : List MergedRow) (t : ℤ) :
    bucketRows (l.filter p) t = (bucketRows l t).filter p := by
  simp only [bucketRows, List.filter_filter]
  exact List.filter_congr fun r _ => by rw [Bool.and_comm]

/-- A row with `NaN` `base_price` has a `NaN` price relative. -/
lemma priceIndex_nan_of_base_nan (r : MergedRow) (h : r.base_price = FVal.nan) :
    priceIndex r = FVal.nan := by
  unfold priceIndex
  rw [h]
  cases r.avg_price <;> rfl

/-- A row with `NaN` `base_price` has a `NaN` weighted value. -/
lemma weighted_nan_of_base_nan (r : MergedRow) (h : r.base_price = FVal.nan) :
    weighted r = FVal.nan := by
  unfold weighted
  rw [priceIndex_nan_of_base_nan r h]
  cases r.weight <;> rfl

/-- A row with `NaN` `weight` has a `NaN` weighted value. -/
lemma weighted_nan_of_weight_nan (r : MergedRow) (h : r.weight = FVal.nan) :
    weighted r = FVal.nan := by
  unfold weighted
  rw [h]
  cases priceIndex r <;> rfl

/-- A sorted list folds `min` to its head. -/
lemma foldl_min_sorted (a : ℤ) (as : List ℤ) (h : ∀ x ∈ as, a ≤ x) :
    as.foldl min a = a := by
  induction as generalizing a with
  | nil => rfl
  | cons b bs ih =>
      have hab : a ≤ b := h b (List.mem_cons_self b bs)
      have : min a b = a := min_eq_left hab
      simp only [List.foldl_cons, this]
      exact ih a fun x hx => h x (List.mem_cons_of_mem _ hx)

/-- The group keys are sorted ascending. -/
lemma timePeriods_sorted (m : List MergedRow) :
    List.Sorted (· ≤ ·) (timePeriods m) :=
  List.sorted_insertionSort _ _

/-- The group keys are distinct. -/
lemma timePeriods_nodup (m : List MergedRow) : (timePeriods m).Nodup :=
  ((List.perm_insertionSort _ _).nodup_iff).mpr
    (List.nodup_dedup _)

/-- The group keys are strictly increasing. -/
lemma timePeriods_sorted_lt (m : List MergedRow) :
    List.Sorted (· < ·) (timePeriods m) :=
  (timePeriods_sorted m).lt_of_le (timePeriods_nodup m)

/-- The first projection of the grouped series is the key list. -/
lemma cpiSeries_fst (m : List MergedRow) :
    (cpiSeries m).map Prod.fst = timePeriods m := by
  simp [cpiSeries, List.map_map, Function.comp_def]

/-- Characterization of a successful `calculate_cpi` run: the join is
nonempty, the key list is nonempty, the rebase divisor is the cpi of the
first (minimum) key, and the output is the rebased series. -/
lemma calculate_cpi_ok_iff (T : List TimeRow) (B : List BaseRow)
    (W : List WeightRow) (pts : List CpiPoint)
    (hok : calculate_cpi T B W = .ok pts) :
    ∃ t0 ts, timePeriods (joinRows T B W) = t0 :: ts ∧
      pts = (cpiSeries (joinRows T B W)).map (fun p =>
        { time_period := p.1, cpi := p.2
          cpi_index := fmul (fdiv p.2 (bucketCpi (joinRows T B W) t0))
            (FVal.num 100) }) := by
  unfold calculate_cpi at hok
  by_cases he : (joinRows T B W).isEmpty
  · simp [he] at hok
  · simp only [he, Bool.false_eq_true, if_false] at hok
    rcases htp : timePeriods (joinRows T B W) with _ | ⟨t0, ts⟩
    · rw [show colMin ((cpiSeries (joinRows T B W)).map Prod.fst) = none by
        rw [cpiSeries_fst, htp]; rfl] at hok
      exact absurd hok (by simp)
    · refine ⟨t0, ts, rfl, ?_⟩
      have hsorted := timePeriods_sorted (joinRows T B W)
      rw [htp] at hsorted
      have hmin : colMin ((cpiSeries (joinRows T B W)).map Prod.fst) = some t0 := by
        rw [cpiSeries_fst, htp]
        show some (List.foldl min t0 ts) = some t0
        rw [foldl_min_sorted t0 ts (List.rel_of_sorted_cons hsorted)]
      rw [hmin] at hok
      have hser : cpiSeries (joinRows T B W) =
          (t0, bucketCpi (joinRows T B W) t0) ::
            ts.map (fun t => (t, bucketCpi (joinRows T B W) t)) := by
        unfold cpiSeries
        rw [htp, List.map_cons]
      rw [hser] at hok
      simp only [List.filter_cons, beq_self_eq_true, if_true, List.map_cons,
        List.headD_cons, Except.ok.injEq] at hok
      rw [← hok, hser]
      simp

/-- `to_datetime` preserves the underlying day number. -/
lemma to_datetime_val (x : TimeCell) : (to_datetime x).val = x.val := by
  cases x <;> rfl

/-- A cell whose `isNan` test holds is `NaN`. -/
lemma eq_nan_of_isNan (v : FVal) (h : v.isNan = true) : v = FVal.nan := by
  cases v <;> simp [FVal.isNan] at h ⊢

/-- The last element of a list is a member. -/
lemma mem_of_getLast?_eq {α : Type} :
    ∀ (l : List α) (a : α), l.getLast? = some a → a ∈ l
  | [], _, h => by simp at h
  | [b], a, h => by
      simp only [List.getLast?_singleton, Option.some.injEq] at h
      simp [h]
  | b :: c :: l, a, h => by
      rw [List.getLast?_cons_cons] at h
      exact List.mem_cons_of_mem _ (mem_of_getLast?_eq (c :: l) a h)

instance : IsTotal MonthlyRow
    (fun a b => a.time_period_month.val ≤ b.time_period_month.val) :=
  ⟨fun a b => le_total _ _⟩

instance : IsTrans MonthlyRow
    (fun a b => a.time_period_month.val ≤ b.time_period_month.val) :=
  ⟨fun _ _ _ hab hbc => le_trans hab hbc⟩

/-- In a key-sorted monthly list, the last element carries the maximal key. -/
lemma sorted_last_max (L : List MonthlyRow)
    (hs : List.Sorted
      (fun a b => a.time_period_month.val ≤ b.time_period_month.val) L)
    (y : MonthlyRow) (hy : L.getLast? = some y) :
    ∀ x ∈ L, x.time_period_month.val ≤ y.time_period_month.val := by
  induction L with
  | nil => simp at hy
  | cons a L ih =>
      cases L with
      | nil =>
          simp only [List.getLast?_singleton, Option.some.injEq] at hy
          subst hy
          intro x hx
          simp only [List.mem_singleton] at hx
          simp [hx]
      | cons b L2 =>
          rw [List.getLast?_cons_cons] at hy
          intro x hx
          rcases List.mem_cons.mp hx with rfl | hx2
          · exact List.rel_of_sorted_cons hs y (mem_of_getLast?_eq _ _ hy)
          · exact ih hs.of_cons hy x hx2

/-- In a key-sorted monthly list, the first element carries the minimal key. -/
lemma sorted_head_min (L : List MonthlyRow)
    (hs : List.Sorted
      (fun a b => a.time_period_month.val ≤ b.time_period_month.val) L)
    (y : MonthlyRow) (hy : L.head? = some y) :
    ∀ x ∈ L, y.time_period_month.val ≤ x.time_period_month.val := by
  cases L with
  | nil => simp at hy
  | cons a L2 =>
      simp only [List.head?_cons, Option.some.injEq] at hy
      subst hy
      intro x hx
      rcases List.mem_cons.mp hx with rfl | hx2
      · exact le_refl _
      · exact List.rel_of_sorted_cons hs x hx2

/-- The backward as-of match is the greatest key `≤ d`. -/
lemma asofBackward_some (ms : List MonthlyRow) (d : ℤ) (b : MonthlyRow)
    (hs : List.Sorted
      (fun a c => a.time_period_month.val ≤ c.time_period_month.val) ms)
    (hb : asofBackward ms d = some b) :
    b ∈ ms ∧ b.time_period_month.val ≤ d ∧
      ∀ x ∈ ms, x.time_period_month.val ≤ d →
        x.time_period_month.val ≤ b.time_period_month.val := by
  unfold asofBackward at hb
  have hbL := mem_of_getLast?_eq _ _ hb
  have hmem := List.mem_filter.mp hbL
  refine ⟨hmem.1, by simpa using hmem.2, ?_⟩
  intro x hx hxd
  exact sorted_last_max _ (List.Pairwise.filter _ hs) b hb x
    (List.mem_filter.mpr ⟨hx, by simpa using hxd⟩)

/-- When the backward as-of search fails, every key exceeds `d`. -/
lemma asofBackward_none (ms : List MonthlyRow) (d : ℤ)
    (hn : asofBackward ms d = none) :
    ∀ x ∈ ms, d < x.time_period_month.val := by
  unfold asofBackward at hn
  rw [List.getLast?_eq_none_iff, List.filter_eq_nil_iff] at hn
  intro x hx
  have := hn x hx
  simp only [decide_eq_true_eq] at this
  omega

/-- The forward as-of match is the least key `≥ d`. -/
lemma asofForward_some (ms : List MonthlyRow) (d : ℤ) (f : MonthlyRow)
    (hs : List.Sorted
      (fun a c => a.time_period_month.val ≤ c.time_period_month.val) ms)
    (hf : asofForward ms d = some f) :
    f ∈ ms ∧ d ≤ f.time_period_month.val ∧
      ∀ x ∈ ms, d ≤ x.time_period_month.val →
        f.time_period_month.val ≤ x.time_period_month.val := by
  unfold asofForward at hf
  have hfL := List.mem_of_mem_head? hf
  have hmem := List.mem_filter.mp hfL
  refine ⟨hmem.1, by simpa using hmem.2, ?_⟩
  intro x hx hxd
  exact sorted_head_min _ (List.Pairwise.filter _ hs) f hf x
    (List.mem_filter.mpr ⟨hx, by simpa using hxd⟩)

/-- When the forward as-of search fails, every key is below `d`. -/
lemma asofForward_none (ms : List MonthlyRow) (d : ℤ)
    (hn : asofForward ms d = none) :
    ∀ x ∈ ms, x.time_period_month.val < d := by
  unfold asofForward at hn
  rw [List.head?_eq_none_iff, List.filter_eq_nil_iff] at hn
  intro x hx
  have := hn x hx
  simp only [decide_eq_true_eq] at this
  omega

/-! ## Claim theorems -/

/-- C8: a category absent from the weight rows, the base-price rows or the
period-price rows never appears in the composed (inner-joined) data: the
two `how=inner` merges on `category_id` silently drop it. -/
theorem join_exclusivity (T : List TimeRow) (B : List BaseRow)
    (W : List WeightRow) (c : ℕ)
    (h : (∀ w ∈ W, w.category_id ≠ c) ∨ (∀ b ∈ B, b.category_id ≠ c) ∨
      (∀ t ∈ T, t.category_id ≠ c)) :
    ∀ r ∈ joinRows T B W, r.category_id ≠ c := by
  intro r hr
  simp only [joinRows, List.mem_flatMap, List.mem_map, List.mem_filter] at hr
  obtain ⟨t, ht, b, ⟨hbB, hbc⟩, w, ⟨hwW, hwc⟩, hrw⟩ := hr
  have hrcat : r.category_id = t.category_id := by rw [← hrw]
  have hbcat : b.category_id = t.category_id := by simpa using hbc
  have hwcat : w.category_id = t.category_id := by simpa using hwc
  rcases h with h | h | h
  · rw [hrcat, ← hwcat]; exact h w hwW
  · rw [hrcat, ← hbcat]; exact h b hbB
  · rw [hrcat]; exact h t ht

/-- Witness for C8: category `0` is in the period prices and base prices
but carries no weight row; the only surviving joined row is category
`1`'s, and the theorem certifies it is not category `0`. -/
theorem join_exclusivity_witness :
    (⟨1, 1, FVal.num 10, FVal.num 20, FVal.num 1⟩ : MergedRow).category_id ≠
      0 :=
  join_exclusivity [⟨1, 0, .rnum 10⟩, ⟨1, 1, .rnum 10⟩]
    [⟨0, .rnum 10⟩, ⟨1, .rnum 20⟩] [⟨1, .rnum 1⟩] 0 (Or.inl (by decide))
    ⟨1, 1, FVal.num 10, FVal.num 20, FVal.num 1⟩ (by decide)

/-- A row whose weight is the number `0` has a weighted value that is
`NaN` or `0`. -/
lemma weighted_of_weight_zero (r : MergedRow) (h : r.weight = FVal.num 0) :
    weighted r = FVal.nan ∨ weighted r = FVal.num 0 := by
  unfold weighted
  rw [h]
  cases priceIndex r with
  | num a => right; simp [fmul]
  | posInf => left; simp [fmul]
  | negInf => left; simp [fmul]
  | nan => left; rfl

/-- C5: in a bucket where every joined row's weight is null or zero,
`total_weight` is `0` and the bucket's cpi is the undefined value `NaN`
(the division `0/0`), never the number `0`. -/
theorem zero_weight_bucket (l : List MergedRow) (t : ℤ)
    (h : ∀ r ∈ bucketRows l t, r.weight = FVal.nan ∨ r.weight = FVal.num 0) :
    totalWeight l t = FVal.num 0 ∧ bucketCpi l t = FVal.nan ∧
      bucketCpi l t ≠ FVal.num 0 := by
  have hw : totalWeight l t = FVal.num 0 := by
    unfold totalWeight
    refine psum_eq_zero_of_forall _ ?_
    intro v hv
    obtain ⟨r, hr, hrv⟩ := List.mem_map.mp hv
    rw [← hrv]
    exact h r hr
  have hwd : totalWeighted l t = FVal.num 0 := by
    unfold totalWeighted
    refine psum_eq_zero_of_forall _ ?_
    intro v hv
    obtain ⟨r, hr, hrv⟩ := List.mem_map.mp hv
    rw [← hrv]
    rcases h r hr with hnan | hzero
    · exact Or.inl (weighted_nan_of_weight_nan r hnan)
    · exact weighted_of_weight_zero r hzero
  have hcpi : bucketCpi l t = FVal.nan := by
    unfold bucketCpi
    rw [hw, hwd]
    rfl
  exact ⟨hw, hcpi, by rw [hcpi]; decide⟩

/-- Witness for C5: one bucket whose only matched category has weight
`0` yields `total_weight = 0` and an undefined (`NaN`) cpi. -/
theorem zero_weight_bucket_witness :
    totalWeight (joinRows [⟨1, 0, .rnum 10⟩] [⟨0, .rnum 10⟩] [⟨0, .rnum 0⟩]) 1 =
      FVal.num 0 ∧
    bucketCpi (joinRows [⟨1, 0, .rnum 10⟩] [⟨0, .rnum 10⟩] [⟨0, .rnum 0⟩]) 1 =
      FVal.nan ∧
    bucketCpi (joinRows [⟨1, 0, .rnum 10⟩] [⟨0, .rnum 10⟩] [⟨0, .rnum 0⟩]) 1 ≠
      FVal.num 0 :=
  zero_weight_bucket (joinRows [⟨1, 0, .rnum 10⟩] [⟨0, .rnum 10⟩] [⟨0, .rnum 0⟩])
    1 (by decide)

/-- The combined frame's (day, daily index) column pairs are those of
the day-sorted daily input. -/
lemma mergeCombined_pairs (ms : List MonthlyRow) (ds : List DailyRow) :
    (mergeCombined ms ds).map
        (fun c => (c.time_period_day.val, c.cpi_index_day)) =
      (List.insertionSort
        (fun a b : DailyRow => a.time_period_day.val ≤ b.time_period_day.val)
        ds).map (fun r => (r.time_period_day.val, r.cpi_index_day)) := by
  unfold mergeCombined
  rw [List.map_map]
  refine List.map_congr_left ?_
  intro dr _
  simp only [Function.comp_apply]
  cases h : nearestMatch
    (List.insertionSort
      (fun a b : MonthlyRow =>
        a.time_period_month.val ≤ b.time_period_month.val) ms)
    dr.time_period_day.val <;> simp [h]

/-- The combined frame's (day, daily index) pairs are a permutation of
the daily input's pairs. -/
lemma mergeCombined_pairs_perm (ms : List MonthlyRow) (ds : List DailyRow) :
    List.Perm
      ((mergeCombined ms ds).map
        (fun c => (c.time_period_day.val, c.cpi_index_day)))
      (ds.map (fun r => (r.time_period_day.val, r.cpi_index_day))) := by
  rw [mergeCombined_pairs]
  exact (List.perm_insertionSort _ ds).map _

/-- The full merger pipeline emits exactly one combined row per daily
input row. -/
lemma save_combined_length (monthly : List MonthlyRow) (daily : List DailyRow) :
    ((save_combined_results monthly daily).2.2).length = daily.length := by
  have hlen := (mergeCombined_pairs_perm
    ((save_combined_results monthly daily).1)
    (daily.map fun r =>
      { r with time_period_day := to_datetime r.time_period_day })).length_eq
  simp only [List.length_map] at hlen
  calc ((save_combined_results monthly daily).2.2).length
      = (((save_combined_results monthly daily).2.2).map
          (fun c => (c.time_period_day.val, c.cpi_index_day))).length := by
        rw [List.length_map]
    _ = daily.length := by
        simpa [save_combined_results] using hlen

/-- C7: the combined frame has exactly one row per daily input row — its
length equals the daily length, and the multiset of (day, daily index)
pairs is exactly that of the daily input, so no daily bucket is dropped
or duplicated. -/
theorem merge_completeness (monthly : List MonthlyRow) (daily : List DailyRow) :
    ((save_combined_results monthly daily).2.2).length = daily.length ∧
    List.Perm
      (((save_combined_results monthly daily).2.2).map
        (fun c => (c.time_period_day.val, c.cpi_index_day)))
      (daily.map (fun r => (r.time_period_day.val, r.cpi_index_day))) := by
  constructor
  · exact save_combined_length monthly daily
  · have := mergeCombined_pairs_perm
      (monthly.map fun r =>
        { r with time_period_month := to_datetime r.time_period_month })
      (daily.map fun r =>
        { r with time_period_day := to_datetime r.time_period_day })
    have hsame : (daily.map fun r =>
        { r with time_period_day := to_datetime r.time_period_day }).map
          (fun r => (r.time_period_day.val, r.cpi_index_day)) =
        daily.map (fun r => (r.time_period_day.val, r.cpi_index_day)) := by
      rw [List.map_map]
      exact List.map_congr_left fun r _ => by simp [to_datetime_val]
    rw [hsame] at this
    simpa [save_combined_results] using this

/-- C10: `save_combined_results` reassigns (converts to datetime) the
`time_period_day` column of the daily frame and the `time_period_month`
column of the monthly frame that the caller passed in, leaving the
`cpi_index` columns unchanged; afterwards every time cell of both frames
is in datetime form. -/
theorem merger_mutates_inputs (monthly : List MonthlyRow)
    (daily : List DailyRow) :
    ((save_combined_results monthly daily).2.1).map
        (fun r => r.time_period_day) =
      daily.map (fun r => to_datetime r.time_period_day) ∧
    ((save_combined_results monthly daily).2.1).map
        (fun r => r.cpi_index_day) =
      daily.map (fun r => r.cpi_index_day) ∧
    ((save_combined_results monthly daily).1).map
        (fun r => r.time_period_month) =
      monthly.map (fun r => to_datetime r.time_period_month) ∧
    ((save_combined_results monthly daily).1).map
        (fun r => r.cpi_index_month) =
      monthly.map (fun r => r.cpi_index_month) ∧
    (∀ r ∈ (save_combined_results monthly daily).2.1,
      ∃ n, r.time_period_day = TimeCell.dt n) ∧
    (∀ r ∈ (save_combined_results monthly daily).1,
      ∃ n, r.time_period_month = TimeCell.dt n) := by
  refine ⟨?_, ?_, ?_, ?_, ?_, ?_⟩
  · simp [save_combined_results, List.map_map]
  · simp [save_combined_results, List.map_map]
  · simp [save_combined_results, List.map_map]
  · simp [save_combined_results, List.map_map]
  · intro r hr
    simp only [save_combined_results, List.mem_map] at hr
    obtain ⟨r0, _, hr0⟩ := hr
    rw [← hr0]
    cases h : r0.time_period_day with
    | rawStr n => exact ⟨n, by simp [to_datetime, h]⟩
    | dt n => exact ⟨n, by simp [to_datetime, h]⟩
  · intro r hr
    simp only [save_combined_results, List.mem_map] at hr
    obtain ⟨r0, _, hr0⟩ := hr
    rw [← hr0]
    cases h : r0.time_period_month with
    | rawStr n => exact ⟨n, by simp [to_datetime, h]⟩
    | dt n => exact ⟨n, by simp [to_datetime, h]⟩

/-- C2 counterexample: a joined row has a null (`NaN`) `base_price`, yet
the run does not fail — it returns a successful series (the null is only
counted in a warning). -/
theorem null_base_no_abort_cex :
    calculate_cpi [⟨1, 0, .rnum 10⟩] [⟨0, .rstr⟩] [⟨0, .rnum 1⟩] =
      .ok [⟨1, FVal.num 0, FVal.nan⟩] ∧
    (joinRows [⟨1, 0, .rnum 10⟩] [⟨0, .rstr⟩] [⟨0, .rnum 1⟩]).any
      (fun r => r.base_price.isNan) = true := by
  constructor
  · with_unfolding_all rfl
  · rfl

/-- C2 amended: the composer fails exactly when the three-way join is
empty; a successful run never returns an empty series. (A null
`base_price` alone does not abort the run.) -/
theorem empty_join_aborts (T : List TimeRow) (B : List BaseRow)
    (W : List WeightRow) :
    (joinRows T B W = [] →
      calculate_cpi T B W = .error "merge produced zero rows") ∧
    (∀ pts, calculate_cpi T B W = .ok pts → pts ≠ []) := by
  constructor
  · intro hj
    unfold calculate_cpi
    rw [hj]
    rfl
  · intro pts hok
    obtain ⟨t0, ts, htp, hpts⟩ := calculate_cpi_ok_iff T B W pts hok
    have hser : cpiSeries (joinRows T B W) =
        (t0, bucketCpi (joinRows T B W) t0) ::
          ts.map (fun t => (t, bucketCpi (joinRows T B W) t)) := by
      unfold cpiSeries
      rw [htp, List.map_cons]
    rw [hpts, hser]
    simp

/-- Witness for C2: mismatched category domains empty the join and the
run aborts with the empty-join error; also every successful output is
nonempty, checked on the end-to-end example. -/
theorem empty_join_aborts_witness :
    calculate_cpi [⟨1, 3, .rnum 10⟩] [⟨4, .rnum 10⟩] [⟨3, .rnum 1⟩] =
      .error "merge produced zero rows" :=
  (empty_join_aborts [⟨1, 3, .rnum 10⟩] [⟨4, .rnum 10⟩] [⟨3, .rnum 1⟩]).1
    (by decide)

/-- C3 counterexample: a joined row with `base_price = 0` (and positive
`avg_price`) yields an infinite price relative that is propagated, as a
computed value, into `total_weighted` and into the bucket's cpi. -/
theorem zero_base_propagates_inf_cex :
    priceIndex ⟨1, 0, FVal.num 10, FVal.num 0, FVal.num 1⟩ = FVal.posInf ∧
    totalWeighted (joinRows [⟨1, 0, .rnum 10⟩] [⟨0, .rnum 0⟩] [⟨0, .rnum 1⟩]) 1 =
      FVal.posInf ∧
    bucketCpi (joinRows [⟨1, 0, .rnum 10⟩] [⟨0, .rnum 0⟩] [⟨0, .rnum 1⟩]) 1 =
      FVal.posInf := by
  refine ⟨?_, ?_, ?_⟩ <;> with_unfolding_all rfl

/-- C3 amended: a joined row whose `base_price` is missing (`NaN`) has an
undefined (`NaN`) price relative and weighted value, and such rows are
excluded from `total_weighted`; a zero `base_price`, however, is not
treated as undefined (see the counterexample). -/
theorem null_base_excluded (l : List MergedRow) (t : ℤ) (r : MergedRow)
    (hr : r ∈ l) (hb : r.base_price = FVal.nan) :
    priceIndex r = FVal.nan ∧ weighted r = FVal.nan ∧
    totalWeighted l t =
      totalWeighted (l.filter (fun x => !x.base_price.isNan)) t := by
  refine ⟨priceIndex_nan_of_base_nan r hb, weighted_nan_of_base_nan r hb, ?_⟩
  unfold totalWeighted
  rw [bucketRows_filter]
  rw [psum_map_filter]
  intro x _ hx
  refine weighted_nan_of_base_nan x (eq_nan_of_isNan _ ?_)
  simpa using hx

/-- Witness for C3: a concrete join with one unparseable base price; the
affected row is `NaN`-excluded from the bucket's `total_weighted`. -/
theorem null_base_excluded_witness :
    priceIndex ⟨1, 0, FVal.num 10, FVal.nan, FVal.num 1⟩ = FVal.nan ∧
    weighted ⟨1, 0, FVal.num 10, FVal.nan, FVal.num 1⟩ = FVal.nan ∧
    totalWeighted
        (joinRows [⟨1, 0, .rnum 10⟩, ⟨1, 1, .rnum 30⟩]
          [⟨0, .rstr⟩, ⟨1, .rnum 20⟩] [⟨0, .rnum 1⟩, ⟨1, .rnum 2⟩]) 1 =
      totalWeighted
        ((joinRows [⟨1, 0, .rnum 10⟩, ⟨1, 1, .rnum 30⟩]
          [⟨0, .rstr⟩, ⟨1, .rnum 20⟩] [⟨0, .rnum 1⟩, ⟨1, .rnum 2⟩]).filter
          (fun x => !x.base_price.isNan)) 1 :=
  null_base_excluded
    (joinRows [⟨1, 0, .rnum 10⟩, ⟨1, 1, .rnum 30⟩]
      [⟨0, .rstr⟩, ⟨1, .rnum 20⟩] [⟨0, .rnum 1⟩, ⟨1, .rnum 2⟩]) 1
    ⟨1, 0, FVal.num 10, FVal.nan, FVal.num 1⟩ (by decide) rfl

/-- C4 counterexample: a run whose join contains a row with an
unparseable weight, while the run's observable data-quality count (which
only counts null base prices) stays `0` — the condition is not counted. -/
theorem unparseable_weight_not_counted_cex :
    (joinRows [⟨1, 0, .rnum 10⟩, ⟨1, 1, .rnum 10⟩]
      [⟨0, .rnum 10⟩, ⟨1, .rnum 10⟩] [⟨0, .rstr⟩, ⟨1, .rnum 1⟩]).any
      (fun r => r.weight.isNan) = true ∧
    nullWarningCount [⟨1, 0, .rnum 10⟩, ⟨1, 1, .rnum 10⟩]
      [⟨0, .rnum 10⟩, ⟨1, .rnum 10⟩] [⟨0, .rstr⟩, ⟨1, .rnum 1⟩] = 0 := by
  constructor
  · rfl
  · rfl

/-- C4 amended: rows with an unparseable (`NaN`) weight affect neither
`total_weight` nor `total_weighted` of their bucket, and the run's only
observable data-quality count (null base prices) ignores them entirely. -/
theorem unparseable_weight_excluded (l : List MergedRow) (t : ℤ) :
    totalWeight l t = totalWeight (l.filter (fun r => !r.weight.isNan)) t ∧
    totalWeighted l t =
      totalWeighted (l.filter (fun r => !r.weight.isNan)) t ∧
    baseNaCount l = baseNaCount
      (l.filter (fun r => !(r.weight.isNan && !r.base_price.isNan))) := by
  refine ⟨?_, ?_, ?_⟩
  · unfold totalWeight
    rw [bucketRows_filter, psum_map_filter]
    intro x _ hx
    exact eq_nan_of_isNan _ (by simpa using hx)
  · unfold totalWeighted
    rw [bucketRows_filter, psum_map_filter]
    intro x _ hx
    exact weighted_nan_of_weight_nan x (eq_nan_of_isNan _ (by simpa using hx))
  · unfold baseNaCount
    rw [List.filter_filter]
    congr 1
    refine List.filter_congr ?_
    intro r _
    cases hw : r.weight.isNan <;> cases hbp : r.base_price.isNan <;>
      simp [hw, hbp]

/-- C9 counterexample: with an empty monthly series and a nonempty daily
series the merge is not empty — it keeps every daily row, with null
monthly columns. -/
theorem empty_monthly_nonempty_cex :
    (save_combined_results [] [⟨.dt 5, .num 100⟩]).2.2 =
      [⟨.dt 5, .num 100, none, .nan⟩] ∧
    ((save_combined_results [] [⟨.dt 5, .num 100⟩]).2.2).length ≠ 0 := by
  constructor
  · rfl
  · decide

/-- C9 amended: an empty daily series merges to an empty result; an
empty monthly series merges to one row per daily row, each with null
monthly fields. Neither case is an error. -/
theorem empty_series_merge (monthly : List MonthlyRow) (daily : List DailyRow) :
    (daily = [] → (save_combined_results monthly daily).2.2 = []) ∧
    (monthly = [] →
      ((save_combined_results monthly daily).2.2).length = daily.length ∧
      ∀ c ∈ (save_combined_results monthly daily).2.2,
        c.time_period_month = none ∧ c.cpi_index_month = FVal.nan) := by
  constructor
  · intro hd
    subst hd
    rfl
  · intro hm
    subst hm
    refine ⟨save_combined_length [] daily, ?_⟩
    intro c hc
    simp only [save_combined_results, mergeCombined, List.mem_map] at hc
    obtain ⟨dr, _, hdr⟩ := hc
    have hnone : nearestMatch
        (List.insertionSort
          (fun a b : MonthlyRow =>
            a.time_period_month.val ≤ b.time_period_month.val)
          (([] : List MonthlyRow).map fun r =>
            { r with time_period_month := to_datetime r.time_period_month }))
        dr.time_period_day.val = none := rfl
    rw [hnone] at hdr
    rw [← hdr]
    exact ⟨rfl, rfl⟩

/-- Witness for C9: the empty-daily half on a concrete monthly series. -/
theorem empty_series_merge_witness :
    (save_combined_results [⟨.dt 3, .num 101⟩] []).2.2 = [] :=
  (empty_series_merge [⟨.dt 3, .num 101⟩] []).1 rfl

/-- C1 counterexample: a successful, non-empty result whose `cpi_index`
at the minimum `time_period` is `NaN`, not `100`: the rebase divisor (the
cpi of the earliest bucket) is itself undefined because that bucket's
only weight is unparseable. -/
theorem rebase_anchor_cex :
    calculate_cpi [⟨1, 0, .rnum 10⟩, ⟨2, 1, .rnum 10⟩]
      [⟨0, .rnum 10⟩, ⟨1, .rnum 10⟩] [⟨0, .rstr⟩, ⟨1, .rnum 1⟩] =
      .ok [⟨1, FVal.nan, FVal.nan⟩, ⟨2, FVal.num 100, FVal.nan⟩] ∧
    FVal.nan ≠ FVal.num 100 := by
  constructor
  · with_unfolding_all rfl
  · decide

/-- C1 amended: in any successful run the first output point carries the
strictly minimal `time_period`, and whenever its cpi is a well-defined
nonzero number the rebase makes its `cpi_index` exactly `100`; when the
earliest bucket's cpi is undefined or zero, its `cpi_index` is not `100`
(see the counterexample). -/
theorem rebase_anchor (T : List TimeRow) (B : List BaseRow)
    (W : List WeightRow) (p : CpiPoint) (rest : List CpiPoint) (q : ℚ)
    (hok : calculate_cpi T B W = .ok (p :: rest))
    (hcpi : p.cpi = FVal.num q) (hq : q ≠ 0) :
    List.Sorted (fun a b : ℤ => a < b)
      (List.map CpiPoint.time_period (p :: rest)) ∧
    p.cpi_index = FVal.num 100 := by
  obtain ⟨t0, ts, htp, hpts⟩ := calculate_cpi_ok_iff T B W (p :: rest) hok
  have hser : cpiSeries (joinRows T B W) =
      (t0, bucketCpi (joinRows T B W) t0) ::
        ts.map (fun t => (t, bucketCpi (joinRows T B W) t)) := by
    unfold cpiSeries
    rw [htp, List.map_cons]
  rw [hser, List.map_cons, List.cons.injEq] at hpts
  obtain ⟨hp, hrest⟩ := hpts
  have hptime : p.time_period = t0 := by rw [hp]
  have hpcpi : p.cpi = bucketCpi (joinRows T B W) t0 := by rw [hp]
  constructor
  · have hmapt : List.map CpiPoint.time_period (p :: rest) = t0 :: ts := by
      rw [List.map_cons, hptime, hrest]
      congr 1
      simp [List.map_map, Function.comp_def]
    rw [hmapt, ← htp]
    exact timePeriods_sorted_lt (joinRows T B W)
  · have hb : bucketCpi (joinRows T B W) t0 = FVal.num q := by
      rw [← hpcpi, hcpi]
    have : p.cpi_index =
        fmul (fdiv (FVal.num q) (FVal.num q)) (FVal.num 100) := by
      rw [hp]
      simp only [hb]
    rw [this]
    simp only [fdiv, if_neg hq, fmul]
    rw [div_self hq]
    norm_num

/-- Witness for C1: the end-to-end example — one bucket with cpi `116`,
rebased to exactly `100` at the (only, hence minimal) time period. -/
theorem rebase_anchor_witness :
    List.Sorted (fun a b : ℤ => a < b)
      (List.map CpiPoint.time_period
        [(⟨1, FVal.num 116, FVal.num 100⟩ : CpiPoint)]) ∧
    (⟨1, FVal.num 116, FVal.num 100⟩ : CpiPoint).cpi_index = FVal.num 100 :=
  rebase_anchor [⟨1, 0, .rnum 12⟩, ⟨1, 1, .rnum 22⟩]
    [⟨0, .rnum 10⟩, ⟨1, .rnum 20⟩]
    [⟨0, .rnum (3 / 5)⟩, ⟨1, .rnum (2 / 5)⟩]
    ⟨1, FVal.num 116, FVal.num 100⟩ [] 116 (by with_unfolding_all rfl) rfl
    (by norm_num)

/-- C6: on a key-sorted monthly series, the nearest-match rule of the
series merge picks a monthly row whose key is at minimal absolute
distance from the daily key, and an exact-distance tie resolves to the
earlier monthly key (pandas keeps the backward match when
`left - backward ≤ forward - left`). -/
theorem nearest_match_tie_earlier (ms : List MonthlyRow) (d : ℤ)
    (m : MonthlyRow)
    (hs : List.Sorted
      (fun a b => a.time_period_month.val ≤ b.time_period_month.val) ms)
    (hm : nearestMatch ms d = some m) :
    m ∈ ms ∧
    (∀ x ∈ ms, (m.time_period_month.val - d).natAbs ≤
      (x.time_period_month.val - d).natAbs) ∧
    (∀ x ∈ ms, (x.time_period_month.val - d).natAbs =
      (m.time_period_month.val - d).natAbs →
      m.time_period_month.val ≤ x.time_period_month.val) := by
  unfold nearestMatch at hm
  rcases hbe : asofBackward ms d with _ | b
  · rcases hfe : asofForward ms d with _ | f
    · rw [hbe, hfe] at hm
      simp at hm
    · rw [hbe, hfe] at hm
      simp only [Option.some.injEq] at hm
      subst hm
      obtain ⟨hfmem, hfge, hfmin⟩ := asofForward_some ms d f hs hfe
      have hall := asofBackward_none ms d hbe
      refine ⟨hfmem, ?_, ?_⟩
      · intro x hx
        have h1 := hall x hx
        have h2 := hfmin x hx (by omega)
        omega
      · intro x hx _
        exact hfmin x hx (by have := hall x hx; omega)
  · rcases hfe : asofForward ms d with _ | f
    · rw [hbe, hfe] at hm
      simp only [Option.some.injEq] at hm
      subst hm
      obtain ⟨hbmem, hble, hbmax⟩ := asofBackward_some ms d b hs hbe
      have hall := asofForward_none ms d hfe
      refine ⟨hbmem, ?_, ?_⟩
      · intro x hx
        have h1 := hall x hx
        have h2 := hbmax x hx (by omega)
        omega
      · intro x hx heq
        have h1 := hall x hx
        have h2 := hbmax x hx (by omega)
        omega
    · rw [hbe, hfe] at hm
      change (if d - b.time_period_month.val ≤ f.time_period_month.val - d
        then some b else some f) = some m at hm
      obtain ⟨hbmem, hble, hbmax⟩ := asofBackward_some ms d b hs hbe
      obtain ⟨hfmem, hfge, hfmin⟩ := asofForward_some ms d f hs hfe
      by_cases hif : d - b.time_period_month.val ≤ f.time_period_month.val - d
      · rw [if_pos hif] at hm
        simp only [Option.some.injEq] at hm
        subst hm
        refine ⟨hbmem, ?_, ?_⟩
        · intro x hx
          by_cases hxd : x.time_period_month.val ≤ d
          · have h2 := hbmax x hx hxd
            omega
          · have h2 := hfmin x hx (by omega)
            omega
        · intro x hx heq
          by_cases hxd : x.time_period_month.val ≤ d
          · have h2 := hbmax x hx hxd
            omega
          · omega
      · rw [if_neg hif] at hm
        simp only [Option.some.injEq] at hm
        subst hm
        refine ⟨hfmem, ?_, ?_⟩
        · intro x hx
          by_cases hxd : x.time_period_month.val ≤ d
          · have h2 := hbmax x hx hxd
            omega
          · have h2 := hfmin x hx (by omega)
            omega
        · intro x hx heq
          by_cases hxd : x.time_period_month.val ≤ d
          · have h2 := hbmax x hx hxd
            omega
          · have h2 := hfmin x hx (by omega)
            omega

/-- Witness for C6, the spec's dated example with 2025-01-01 as day 0:
the daily bucket 2025-01-15 (day 14) attaches to the monthly bucket
2025-01-01 (day 0, distance 14) rather than 2025-02-01 (day 31,
distance 17). -/
theorem nearest_match_tie_earlier_witness :
    (⟨.dt 0, .num 100⟩ : MonthlyRow) ∈
      [(⟨.dt 0, .num 100⟩ : MonthlyRow), ⟨.dt 31, .num 102⟩] ∧
    ((⟨.dt 0, .num 100⟩ : MonthlyRow).time_period_month.val - 14).natAbs ≤
      ((⟨.dt 31, .num 102⟩ : MonthlyRow).time_period_month.val - 14).natAbs :=
  ⟨(nearest_match_tie_earlier
      [⟨.dt 0, .num 100⟩, ⟨.dt 31, .num 102⟩] 14 ⟨.dt 0, .num 100⟩
      (by decide) (by decide)).1,
   (nearest_match_tie_earlier
      [⟨.dt 0, .num 100⟩, ⟨.dt 31, .num 102⟩] 14 ⟨.dt 0, .num 100⟩
      (by decide) (by decide)).2.1 ⟨.dt 31, .num 102⟩ (by decide)⟩

end Cpi
